import Mathlib

/-!
Verification of the search-and-list state controller of the hacker-stories
repository (src/src/App.tsx, final snapshot starting at line 380, and the
earlier src/src/App.js snapshot), as a shallow embedding in Lean 4.

Strings are embedded as `List Char` (JS strings compared by `===` and by
lexicographic code-unit order).  JS numbers that the code uses as integers
(`num_comments`, `points`, `page`) are embedded as `Int` / `Nat`.
-/

namespace HackerStories

/-- A story record, App.tsx lines 383-390.  `objectID` is the identity. -/
structure Story where
  objectID : List Char
  url : List Char
  title : List Char
  author : List Char
  num_comments : Int
  points : Int
deriving DecidableEq

/-- Alias `Stories = Array<Story>`, App.tsx line 392. -/
abbrev Stories := List Story

/-- Reducer state, App.tsx lines 444-449 (final snapshot, with `page`). -/
structure StoriesState where
  data : Stories
  isLoading : Bool
  isError : Bool
  page : Nat
deriving DecidableEq

/-- The closed action vocabulary of the final snapshot, App.tsx lines
425-442 and 451-455.  The TS source dispatches on string tags; the tagged
union makes the reducer's `default: throw` arm (line 491-492)
unrepresentable, exactly as §9 of the spec suggests. -/
inductive StoriesAction where
  | fetchInit : StoriesAction
  | fetchSuccess (payload : Stories) (page : Nat) : StoriesAction
  | fetchFailure : StoriesAction
  | removeStory (payload : Story) : StoriesAction
deriving DecidableEq

/-- Reducer `storiesReducer`, App.tsx lines 457-494 (final snapshot).  Spread
syntax `{...state, ...}` is embedded as record update. -/
def storiesReducer (state : StoriesState) (action : StoriesAction) : StoriesState :=
  match action with
  | .fetchInit =>
      { state with isLoading := true, isError := false }
  | .fetchSuccess payload page =>
      { state with
        isLoading := false,
        isError := false,
        data := if page = 0 then payload else state.data ++ payload,
        page := page }
  | .fetchFailure =>
      { state with isLoading := false, isError := true }
  | .removeStory payload =>
      { state with
        data := state.data.filter (fun story => decide (payload.objectID ≠ story.objectID)) }

/-- Reducer state of the App.js snapshot (no `page` field), App.js. -/
structure StoriesStateJs where
  data : Stories
  isLoading : Bool
  isError : Bool
deriving DecidableEq

/-- Action vocabulary of the App.js snapshot: its FETCH_SUCCESS carries
only a payload (App.js lines 32-38). -/
inductive StoriesActionJs where
  | fetchInit : StoriesActionJs
  | fetchSuccess (payload : Stories) : StoriesActionJs
  | fetchFailure : StoriesActionJs
  | removeStory (payload : Story) : StoriesActionJs
deriving DecidableEq

/-- Reducer `storiesReducer` of the App.js snapshot, App.js lines 24-55.  Its
REMOVE_STORY case (lines 45-51) evaluates `state.filter(...)`: `state` is
the plain state object, which has no `filter` method, so the call throws
`TypeError` before any state is produced (the result would moreover have
been assigned to the misspelled key `date`, not `data`).  The throw is
embedded as `Except.error`. -/
def storiesReducerJs (state : StoriesStateJs) (action : StoriesActionJs) :
    Except (List Char) StoriesStateJs :=
  match action with
  | .fetchInit =>
      .ok { state with isLoading := true, isError := false }
  | .fetchSuccess payload =>
      .ok { state with isLoading := false, isError := false, data := payload }
  | .fetchFailure =>
      .ok { state with isLoading := false, isError := true }
  | .removeStory _ =>
      .error ("TypeError: state.filter is not a function".toList)

/-- Function `getSumComments`, App.tsx lines 496-503: a fold of `+ num_comments`
over `stories.data` starting from 0. -/
def getSumComments (stories : StoriesState) : Int :=
  stories.data.foldl (fun result value => result + value.num_comments) 0

/-- Initial reducer state, App.tsx line 554. -/
def initialStoriesState : StoriesState :=
  { data := [], isLoading := false, isError := false, page := 0 }

/-- Folding a sequence of dispatched actions through the reducer,
in dispatch order. -/
def applyActions (s : StoriesState) (actions : List StoriesAction) : StoriesState :=
  actions.foldl storiesReducer s

/-- Constant `API_BASE`, App.tsx line 394. -/
def API_BASE : List Char := "https://hn.algolia.com/api/v1".toList

/-- Constant `API_SEARCH`, App.tsx line 395. -/
def API_SEARCH : List Char := "/search".toList

/-- Constant `PARAM_SEARCH`, App.tsx line 396. -/
def PARAM_SEARCH : List Char := "query=".toList

/-- Constant `PARAM_PAGE`, App.tsx line 397. -/
def PARAM_PAGE : List Char := "page=".toList

/-- Fuel-indexed worker for decimal rendering; the fuel only bounds the
number of divisions by 10 and `n + 1` is always enough. -/
def natToCharsAux : Nat → Nat → List Char
  | 0, _ => []
  | fuel + 1, n =>
      if n < 10 then [Nat.digitChar n]
      else natToCharsAux fuel (n / 10) ++ [Nat.digitChar (n % 10)]

/-- Decimal rendering of a natural number, the behaviour of the template
interpolation `${page}` for the non-negative integer pages the app uses. -/
def natToChars (n : Nat) : List Char :=
  natToCharsAux (n + 1) n

/-- Builder `getUrl`, App.tsx lines 505-506: the template literal
`API_BASE API_SEARCH ? PARAM_SEARCH searchTerm & PARAM_PAGE page`. -/
def getUrl (searchTerm : List Char) (page : Nat) : List Char :=
  API_BASE ++ API_SEARCH ++ ['?'] ++ PARAM_SEARCH ++ searchTerm
    ++ ['&'] ++ PARAM_PAGE ++ natToChars page

/-- Index of the last occurrence of a character, as an option. -/
def lastIdxAux (c : Char) : List Char → Option Nat
  | [] => none
  | x :: xs =>
      match lastIdxAux c xs with
      | some i => some (i + 1)
      | none => if x = c then some 0 else none

/-- JS `String.prototype.lastIndexOf` on a single character: the index of
its last occurrence, or -1 when absent. -/
def lastIndexOf (c : Char) (s : List Char) : Int :=
  match lastIdxAux c s with
  | some i => (i : Int)
  | none => -1

/-- JS `String.prototype.substring`: negative bounds clamp to 0, bounds
beyond the length clamp to the length, and the two bounds are swapped when
given out of order. -/
def jsSubstring (s : List Char) (start stop : Int) : List Char :=
  let a := min (max start 0).toNat s.length
  let b := min (max stop 0).toNat s.length
  (s.take (max a b)).drop (min a b)

/-- Prefix test used to model JS string search. -/
def charsStartWith : List Char → List Char → Bool
  | [], _ => true
  | _ :: _, [] => false
  | p :: ps, s :: ss => p = s && charsStartWith ps ss

/-- JS `String.prototype.replace` with a plain-string pattern: replaces the
first (leftmost) occurrence of `pat` only, and returns the string unchanged
when `pat` does not occur. -/
def replaceFirst (pat repl : List Char) : List Char → List Char
  | [] => if pat = [] then repl else []
  | x :: xs =>
      if charsStartWith pat (x :: xs) then repl ++ (x :: xs).drop pat.length
      else x :: replaceFirst pat repl xs

/-- Extractor `extractSearchTerm`, App.tsx lines 508-510:
`url.substring(url.lastIndexOf(?)+1, url.lastIndexOf(&)).replace(PARAM_SEARCH, empty)`. -/
def extractSearchTerm (url : List Char) : List Char :=
  replaceFirst PARAM_SEARCH []
    (jsSubstring url (lastIndexOf '?' url + 1) (lastIndexOf '&' url))

/-- The reduce callback of `getLastSearches`, App.tsx lines 514-527, taking
the accumulator and an (index, url) pair.  JS `result[result.length - 1]`
on an empty `result` is `undefined`, which compares unequal to every
string; it is embedded as `List.getLast?`. -/
def lastSearchStep (result : List (List Char)) (iu : Nat × List Char) : List (List Char) :=
  let searchTerm := extractSearchTerm iu.2
  if iu.1 = 0 then
    result ++ [searchTerm]
  else
    let previousSearchTerm := result.getLast?
    if some searchTerm = previousSearchTerm then result
    else result ++ [searchTerm]

/-- Tracker `getLastSearches`, App.tsx lines 512-529: a reduce over the URL list
(with its index) collapsing consecutive equal extracted terms, then
`slice(-6)` (the last six entries, embedded as `List.rtake 6`) and
`slice(0, -1)` (drop the final entry, embedded as `List.dropLast`). -/
def getLastSearches (urls : List (List Char)) : List (List Char) :=
  ((urls.enum.foldl lastSearchStep []).rtake 6).dropLast

/-- Worker of `collapseConsecutive`: `prev` is the last kept term. -/
def collapseConsecutiveGo (prev : List Char) : List (List Char) → List (List Char)
  | [] => []
  | t :: ts =>
      if t = prev then collapseConsecutiveGo prev ts
      else t :: collapseConsecutiveGo t ts

/-- Spec-side description of the history tracker's dedup pass (C2): keep a
term only when it differs from the immediately preceding kept term.  Stated
from the claim's words, to be compared with `getLastSearches`. -/
def collapseConsecutive : List (List Char) → List (List Char)
  | [] => []
  | t :: ts => t :: collapseConsecutiveGo t ts

lemma natToCharsAux_mem (fuel : Nat) :
    ∀ n c, c ∈ natToCharsAux fuel n → ∃ k, k < 10 ∧ c = Nat.digitChar k := by
  induction fuel with
  | zero => intro n c h; simp [natToCharsAux] at h
  | succ f ih =>
      intro n c h
      by_cases h10 : n < 10
      · simp [natToCharsAux, h10] at h
        exact ⟨n, h10, h⟩
      · simp [natToCharsAux, h10] at h
        rcases h with h | h
        · exact ih _ _ h
        · exact ⟨n % 10, Nat.mod_lt _ (by decide), h⟩

lemma natToChars_no_sep (n : Nat) : '?' ∉ natToChars n ∧ '&' ∉ natToChars n := by
  have key : ∀ c, c ∈ natToChars n → ∃ k, k < 10 ∧ c = Nat.digitChar k :=
    fun c hc => natToCharsAux_mem (n + 1) n c hc
  have hd : ∀ k, k < 10 → Nat.digitChar k ≠ '?' ∧ Nat.digitChar k ≠ '&' := by decide
  constructor
  · intro h
    rcases key _ h with ⟨k, hk, hc⟩
    exact (hd k hk).1 hc.symm
  · intro h
    rcases key _ h with ⟨k, hk, hc⟩
    exact (hd k hk).2 hc.symm

lemma lastIdxAux_of_not_mem (c : Char) :
    ∀ l : List Char, c ∉ l → lastIdxAux c l = none := by
  intro l
  induction l with
  | nil => intro; rfl
  | cons x xs ih =>
      intro h
      rw [List.mem_cons] at h
      push_neg at h
      rw [lastIdxAux, ih h.2]
      simp [Ne.symm h.1]

lemma lastIdxAux_append_cons (c : Char) (xs : List Char) (hxs : c ∉ xs) :
    ∀ ys : List Char, lastIdxAux c (ys ++ c :: xs) = some ys.length := by
  intro ys
  induction ys with
  | nil => simp [lastIdxAux, lastIdxAux_of_not_mem c xs hxs]
  | cons y ys ih => simp [lastIdxAux, ih]

lemma jsSubstring_natCast (s : List Char) (a b : Nat) (hab : a ≤ b) (hb : b ≤ s.length) :
    jsSubstring s (a : Int) (b : Int) = (s.take b).drop a := by
  have h1 : (max (a : Int) 0).toNat = a := by
    rw [max_eq_left (Int.natCast_nonneg a), Int.toNat_natCast]
  have h2 : (max (b : Int) 0).toNat = b := by
    rw [max_eq_left (Int.natCast_nonneg b), Int.toNat_natCast]
  simp only [jsSubstring, h1, h2, min_eq_left (le_trans hab hb), min_eq_left hb,
    min_eq_left hab, max_eq_right hab]

lemma charsStartWith_append (pat rest : List Char) :
    charsStartWith pat (pat ++ rest) = true := by
  induction pat with
  | nil => rfl
  | cons p ps ih => simpa [charsStartWith] using ih

lemma replaceFirst_del_append (pat rest : List Char) (hne : pat ≠ []) :
    replaceFirst pat [] (pat ++ rest) = rest := by
  cases pat with
  | nil => exact absurd rfl hne
  | cons p ps =>
      have hsw : charsStartWith (p :: ps) (p :: (ps ++ rest)) = true := by
        have h := charsStartWith_append (p :: ps) rest
        rwa [List.cons_append] at h
      rw [List.cons_append, replaceFirst, hsw]
      simp [List.drop_left]

/-- C3: the URL builder followed by the query-parameter extractor is the
identity on the search term, for any term containing no `?` and no `&`. -/
theorem extractSearchTerm_getUrl (term : List Char) (page : Nat)
    (hq : '?' ∉ term) (ha : '&' ∉ term) :
    extractSearchTerm (getUrl term page) = term := by
  have hurl : getUrl term page =
      (API_BASE ++ API_SEARCH) ++ '?' ::
        (PARAM_SEARCH ++ (term ++ '&' :: (PARAM_PAGE ++ natToChars page))) := by
    simp [getUrl, List.append_assoc]
  have hurl2 : getUrl term page =
      ((API_BASE ++ API_SEARCH) ++ '?' :: (PARAM_SEARCH ++ term)) ++ '&' ::
        (PARAM_PAGE ++ natToChars page) := by
    simp [getUrl, List.append_assoc]
  have hq1 : lastIdxAux '?' (getUrl term page) =
      some (API_BASE ++ API_SEARCH).length := by
    rw [hurl]
    apply lastIdxAux_append_cons
    simp only [List.mem_append, List.mem_cons]
    rintro (h | h | h | h | h)
    · exact absurd h (by decide)
    · exact hq h
    · exact absurd h (by decide)
    · exact absurd h (by decide)
    · exact (natToChars_no_sep page).1 h
  have ha1 : lastIdxAux '&' (getUrl term page) =
      some ((API_BASE ++ API_SEARCH).length + 1 + PARAM_SEARCH.length + term.length) := by
    rw [hurl2]
    have h := lastIdxAux_append_cons '&' (PARAM_PAGE ++ natToChars page)
      (by
        simp only [List.mem_append]
        rintro (h | h)
        · exact absurd h (by decide)
        · exact (natToChars_no_sep page).2 h)
      ((API_BASE ++ API_SEARCH) ++ '?' :: (PARAM_SEARCH ++ term))
    rw [h]
    simp [List.length_append, List.length_cons]
    omega
  have hlen : (getUrl term page).length =
      (API_BASE ++ API_SEARCH).length + 1 + PARAM_SEARCH.length + term.length + 1
        + (PARAM_PAGE ++ natToChars page).length := by
    rw [hurl2]
    simp [List.length_append, List.length_cons]
    omega
  rw [extractSearchTerm, lastIndexOf, lastIndexOf, hq1, ha1]
  have hcast : ((API_BASE ++ API_SEARCH).length : Int) + 1 =
      (((API_BASE ++ API_SEARCH).length + 1 : Nat) : Int) := by push_cast; ring
  rw [hcast, jsSubstring_natCast _ _ _ (by omega) (by omega)]
  have htake : (getUrl term page).take
      ((API_BASE ++ API_SEARCH).length + 1 + PARAM_SEARCH.length + term.length) =
      (API_BASE ++ API_SEARCH) ++ '?' :: (PARAM_SEARCH ++ term) := by
    rw [hurl2]
    apply List.take_left'
    simp [List.length_append, List.length_cons]
    omega
  rw [htake]
  have hdrop : ((API_BASE ++ API_SEARCH) ++ '?' :: (PARAM_SEARCH ++ term)).drop
      ((API_BASE ++ API_SEARCH).length + 1) = PARAM_SEARCH ++ term := by
    have : (API_BASE ++ API_SEARCH) ++ '?' :: (PARAM_SEARCH ++ term) =
        ((API_BASE ++ API_SEARCH) ++ ['?']) ++ (PARAM_SEARCH ++ term) := by
      simp [List.append_assoc]
    rw [this]
    apply List.drop_left'
    simp only [List.length_append, List.length_cons, List.length_nil]
  rw [hdrop]
  exact replaceFirst_del_append PARAM_SEARCH term (by decide)

/-- Witness for `extractSearchTerm_getUrl` at term "react", page 3. -/
theorem extractSearchTerm_getUrl_witness :
    extractSearchTerm (getUrl "react".toList 3) = "react".toList :=
  extractSearchTerm_getUrl "react".toList 3 (by decide) (by decide)

lemma foldl_lastSearchStep (ts : List (List Char)) :
    ∀ (n : Nat) (acc : List (List Char)) (p : List Char), acc.getLast? = some p →
      List.foldl lastSearchStep acc (List.enumFrom (n + 1) ts) =
        acc ++ collapseConsecutiveGo p (ts.map extractSearchTerm) := by
  induction ts with
  | nil =>
      intro n acc p hp
      simp [List.enumFrom, collapseConsecutiveGo]
  | cons u ts ih =>
      intro n acc p hp
      rw [List.enumFrom_cons, List.foldl_cons]
      by_cases ht : extractSearchTerm u = p
      · have hstep : lastSearchStep acc (n + 1, u) = acc := by
          simp [lastSearchStep, hp, ht]
        rw [hstep, ih (n + 1) acc p hp]
        simp [collapseConsecutiveGo, ht]
      · have hstep : lastSearchStep acc (n + 1, u) = acc ++ [extractSearchTerm u] := by
          simp [lastSearchStep, hp, ht]
        rw [hstep,
          ih (n + 1) (acc ++ [extractSearchTerm u]) (extractSearchTerm u)
            (List.getLast?_concat acc)]
        simp [collapseConsecutiveGo, ht, List.append_assoc]

lemma foldl_lastSearchStep_enum (urls : List (List Char)) :
    urls.enum.foldl lastSearchStep [] = collapseConsecutive (urls.map extractSearchTerm) := by
  cases urls with
  | nil => rfl
  | cons u ts =>
      rw [List.enum_cons, List.foldl_cons]
      have hstep : lastSearchStep [] (0, u) = [extractSearchTerm u] := by
        simp [lastSearchStep]
      rw [hstep,
        foldl_lastSearchStep ts 0 [extractSearchTerm u] (extractSearchTerm u) (by simp)]
      simp [collapseConsecutive]

lemma rtake_dropLast_length_le (l : List (List Char)) :
    ((l.rtake 6).dropLast).length ≤ 5 := by
  rw [List.length_dropLast, List.rtake, List.length_drop]
  omega

/-- C2: `getLastSearches` maps the URLs through `extractSearchTerm`,
collapses consecutive duplicate terms, keeps the last 6 entries and drops
the final one; consequently its output has at most 5 entries, a single URL
yields the empty list, and the urlFor("a",0), urlFor("a",1), urlFor("b",0)
example yields exactly ["a"]. -/
theorem getLastSearches_spec :
    (∀ urls, getLastSearches urls =
      ((collapseConsecutive (urls.map extractSearchTerm)).rtake 6).dropLast)
    ∧ (∀ urls, (getLastSearches urls).length ≤ 5)
    ∧ (∀ u, getLastSearches [u] = [])
    ∧ getLastSearches [getUrl "a".toList 0, getUrl "a".toList 1, getUrl "b".toList 0]
        = ["a".toList] := by
  have hmain : ∀ urls, getLastSearches urls =
      ((collapseConsecutive (urls.map extractSearchTerm)).rtake 6).dropLast := by
    intro urls
    rw [getLastSearches, foldl_lastSearchStep_enum]
  refine ⟨hmain, ?_, ?_, by decide⟩
  · intro urls
    rw [getLastSearches]
    exact rtake_dropLast_length_le _
  · intro u
    rw [hmain]
    simp [collapseConsecutive, collapseConsecutiveGo, List.rtake]

/-- Concrete sample story (objectID "1"). -/
def storyA : Story :=
  { objectID := "1".toList, url := "https://a.example".toList, title := "Alpha".toList,
    author := "ann".toList, num_comments := 2, points := 5 }

/-- Concrete sample story (objectID "2"). -/
def storyB : Story :=
  { objectID := "2".toList, url := "https://b.example".toList, title := "Beta".toList,
    author := "bob".toList, num_comments := 7, points := 5 }

/-- Lexicographic code-unit comparison of JS strings, the order lodash
`sortBy` uses on string fields. -/
def lexLe : List Char → List Char → Bool
  | [], _ => true
  | _ :: _, [] => false
  | a :: as, b :: bs => if a = b then lexLe as bs else decide (a < b)

/-- The five sort keys of the `SORTS` dispatch table, App.tsx lines
740-746.  The TS source keys the table by strings; the closed enum follows
§9 of the spec ("a tagged enum matched against a fixed set of comparator
functions"). -/
inductive SortKey where
  | NONE : SortKey
  | TITLE : SortKey
  | AUTHOR : SortKey
  | COMMENT : SortKey
  | POINT : SortKey
deriving DecidableEq

/-- Ascending order on the `title` field. -/
def byTitle (a b : Story) : Prop := lexLe a.title b.title = true

/-- Ascending order on the `author` field. -/
def byAuthor (a b : Story) : Prop := lexLe a.author b.author = true

/-- Ascending order on the `num_comments` field. -/
def byComments (a b : Story) : Prop := a.num_comments ≤ b.num_comments

/-- Ascending order on the `points` field. -/
def byPoints (a b : Story) : Prop := a.points ≤ b.points

instance : DecidableRel byTitle := fun a b => instDecidableEqBool (lexLe a.title b.title) true

instance : DecidableRel byAuthor := fun a b => instDecidableEqBool (lexLe a.author b.author) true

instance : DecidableRel byComments := fun a b => Int.decLe a.num_comments b.num_comments

instance : DecidableRel byPoints := fun a b => Int.decLe a.points b.points

/-- Dispatch table `SORTS`, App.tsx lines 740-746.  lodash `sortBy` is a stable ascending
sort by the given field; a stable sort's output is determined uniquely by
the comparator, and Mathlib's `List.insertionSort` is stable, so the
embedding is exact.  `COMMENT` and `POINT` reverse the ascending sort. -/
def SORTS (k : SortKey) : List Story → List Story :=
  match k with
  | .NONE => fun list => list
  | .TITLE => fun list => List.insertionSort byTitle list
  | .AUTHOR => fun list => List.insertionSort byAuthor list
  | .COMMENT => fun list => (List.insertionSort byComments list).reverse
  | .POINT => fun list => (List.insertionSort byPoints list).reverse

/-- The sorted view of the List component, App.tsx lines 766-767:
`sort.isReverse ? sortFunction(list).reverse() : sortFunction(list)`. -/
def applySort (list : List Story) (sortKey : SortKey) (isReverse : Bool) : List Story :=
  if isReverse then (SORTS sortKey list).reverse else SORTS sortKey list

lemma applyActions_cons (s : StoriesState) (a : StoriesAction) (rest : List StoriesAction) :
    applyActions s (a :: rest) = applyActions (storiesReducer s a) rest := rfl

lemma applyActions_flags (actions : List StoriesAction) :
    ∀ s : StoriesState, (s.isLoading = false ∨ s.isError = false) →
      ((applyActions s actions).isLoading = false ∨ (applyActions s actions).isError = false) := by
  induction actions with
  | nil => intro s h; exact h
  | cons a rest ih =>
      intro s h
      rw [applyActions_cons]
      refine ih (storiesReducer s a) ?_
      cases a with
      | fetchInit => simp [storiesReducer]
      | fetchSuccess payload page => simp [storiesReducer]
      | fetchFailure => simp [storiesReducer]
      | removeStory item => simpa [storiesReducer] using h

lemma sumComments_foldl (l : Stories) :
    ∀ acc : Int, l.foldl (fun result value => result + value.num_comments) acc =
      acc + (l.map Story.num_comments).sum := by
  induction l with
  | nil => intro acc; simp
  | cons x xs ih => intro acc; simp [List.foldl, ih]; ring

/-- C1: for every state, payload and page, FETCH_SUCCESS yields
`isLoading = false`, `isError = false`, `page` set to the action's page, and
`data` replaced by the payload when the page is 0, else the previous data
with the payload appended (order preserved, no deduplication). -/
theorem fetchSuccess_replaces_or_appends :
    ∀ (s : StoriesState) (payload : Stories) (page : Nat),
      storiesReducer s (.fetchSuccess payload page) =
        { data := if page = 0 then payload else s.data ++ payload,
          isLoading := false, isError := false, page := page } := by
  intro s payload page
  rfl

/-- C6: FETCH_FAILURE yields `isLoading = false`, `isError = true` and leaves
`data` and `page` untouched; in particular FETCH_INIT followed by
FETCH_FAILURE leaves `data` (and `page`) at their values before FETCH_INIT. -/
theorem fetchFailure_spec :
    ∀ s : StoriesState,
      storiesReducer s .fetchFailure =
        { data := s.data, isLoading := false, isError := true, page := s.page }
      ∧ storiesReducer (storiesReducer s .fetchInit) .fetchFailure =
        { data := s.data, isLoading := false, isError := true, page := s.page } := by
  intro s
  exact ⟨rfl, rfl⟩

/-- C7: in every state reachable from the initial state by a sequence of the
four reducer actions, `isLoading` and `isError` are never both true. -/
theorem isLoading_isError_mutually_exclusive :
    ∀ actions : List StoriesAction,
      ¬((applyActions initialStoriesState actions).isLoading = true ∧
        (applyActions initialStoriesState actions).isError = true) := by
  intro actions h
  have hstart : initialStoriesState.isLoading = false ∨ initialStoriesState.isError = false :=
    Or.inl rfl
  rcases applyActions_flags actions initialStoriesState hstart with hl | he
  · rw [h.1] at hl; exact Bool.noConfusion hl
  · rw [h.2] at he; exact Bool.noConfusion he

/-- C4: the final snapshot's reducer (App.tsx lines 484-490) does filter
`data` to exactly the stories whose `objectID` differs from the removed
item's, keeping relative order and leaving the flags and the page unchanged
— but the App.js snapshot's reducer (App.js lines 45-51) calls
`state.filter` on the state object, which throws a `TypeError` for every
state and item instead of returning a state with the filtered `data`. -/
theorem removeStory_js_snapshot_throws :
    (∀ (s : StoriesStateJs) (item : Story),
      storiesReducerJs s (.removeStory item) =
        .error ("TypeError: state.filter is not a function".toList))
    ∧ (∀ (s : StoriesState) (item : Story),
        (storiesReducer s (.removeStory item)).data =
          s.data.filter (fun story => decide (item.objectID ≠ story.objectID))
        ∧ (∀ x, x ∈ (storiesReducer s (.removeStory item)).data ↔
            x ∈ s.data ∧ x.objectID ≠ item.objectID)
        ∧ (storiesReducer s (.removeStory item)).isLoading = s.isLoading
        ∧ (storiesReducer s (.removeStory item)).isError = s.isError
        ∧ (storiesReducer s (.removeStory item)).page = s.page) := by
  refine ⟨fun _ _ => rfl, fun s item => ⟨rfl, ?_, rfl, rfl, rfl⟩⟩
  intro x
  simp [storiesReducer, List.mem_filter, ne_comm]

/-- C8 as stated is false: a REMOVE_STORY action on a state whose `data`
already holds two copies of a story (objectID "1") with a different removed
objectID ("2") yields `data` that still contains two stories with the same
`objectID`. -/
theorem remove_duplicate_ids_counterexample :
    ¬((storiesReducer
        { data := [storyA, storyA], isLoading := false, isError := false, page := 0 }
        (.removeStory storyB)).data.Pairwise
          (fun a b => a.objectID ≠ b.objectID)) := by
  decide

/-- C8 amended: provided the pre-state's `data` contains no two stories with
the same `objectID`, the data resulting from a REMOVE_STORY action never
contains two stories with the same `objectID` (removal filters by inequality
against the removed item's objectID). -/
theorem remove_preserves_distinct_ids (s : StoriesState) (item : Story)
    (h : s.data.Pairwise (fun a b => a.objectID ≠ b.objectID)) :
    ((storiesReducer s (.removeStory item)).data.Pairwise
      (fun a b => a.objectID ≠ b.objectID)) := by
  simpa [storiesReducer] using
    h.filter (fun story => decide (item.objectID ≠ story.objectID))

/-- Witness for `remove_preserves_distinct_ids` at a concrete state. -/
theorem remove_preserves_distinct_ids_witness :
    ((storiesReducer
        { data := [storyA, storyB], isLoading := false, isError := false, page := 0 }
        (.removeStory storyB)).data.Pairwise
          (fun a b => a.objectID ≠ b.objectID)) :=
  remove_preserves_distinct_ids
    { data := [storyA, storyB], isLoading := false, isError := false, page := 0 }
    storyB (by decide)

/-- C10: `getSumComments` returns the sum of the `num_comments` fields of
the stories in `data` (0 on empty data), independently of the flags and of
the page. -/
theorem getSumComments_spec :
    (∀ st : StoriesState, getSumComments st = (st.data.map Story.num_comments).sum)
    ∧ (∀ lo er pg,
        getSumComments { data := [], isLoading := lo, isError := er, page := pg } = 0)
    ∧ (∀ d lo er pg lo' er' pg',
        getSumComments { data := d, isLoading := lo, isError := er, page := pg } =
          getSumComments { data := d, isLoading := lo', isError := er', page := pg' }) := by
  refine ⟨fun st => ?_, fun lo er pg => rfl, fun d lo er pg lo' er' pg' => rfl⟩
  simpa using sumComments_foldl st.data 0

lemma lexLe_total : ∀ a b : List Char, lexLe a b = true ∨ lexLe b a = true := by
  intro a
  induction a with
  | nil => intro b; left; rfl
  | cons x xs ih =>
      intro b
      cases b with
      | nil => right; rfl
      | cons y ys =>
          by_cases hxy : x = y
          · subst hxy
            simpa [lexLe] using ih ys
          · rcases lt_or_gt_of_ne hxy with h | h
            · left; simp [lexLe, hxy, h]
            · right; simp [lexLe, Ne.symm hxy, h]

lemma lexLe_trans : ∀ a b c : List Char,
    lexLe a b = true → lexLe b c = true → lexLe a c = true := by
  intro a
  induction a with
  | nil => intro b c _ _; rfl
  | cons x xs ih =>
      intro b c hab hbc
      cases b with
      | nil => simp [lexLe] at hab
      | cons y ys =>
          cases c with
          | nil => simp [lexLe] at hbc
          | cons z zs =>
              by_cases hxy : x = y
              · subst hxy
                by_cases hxz : x = z
                · subst hxz
                  simp [lexLe] at hab hbc ⊢
                  exact ih ys zs hab hbc
                · simpa [lexLe, hxz] using hbc
              · simp [lexLe, hxy] at hab
                by_cases hyz : y = z
                · subst hyz
                  simpa [lexLe, hxy] using hab
                · simp [lexLe, hyz] at hbc
                  have hxz : x < z := lt_trans hab hbc
                  simp [lexLe, ne_of_lt hxz, hxz]

instance : IsTotal Story byTitle := ⟨fun a b => lexLe_total a.title b.title⟩

instance : IsTrans Story byTitle := ⟨fun a b c => lexLe_trans a.title b.title c.title⟩

instance : IsTotal Story byAuthor := ⟨fun a b => lexLe_total a.author b.author⟩

instance : IsTrans Story byAuthor := ⟨fun a b c => lexLe_trans a.author b.author c.author⟩

instance : IsTotal Story byComments := ⟨fun a b => Int.le_total a.num_comments b.num_comments⟩

instance : IsTrans Story byComments := ⟨fun _ _ _ hab hbc => le_trans hab hbc⟩

instance : IsTotal Story byPoints := ⟨fun a b => Int.le_total a.points b.points⟩

instance : IsTrans Story byPoints := ⟨fun _ _ _ hab hbc => le_trans hab hbc⟩

lemma sorted_perm_eq {α : Type} {r : α → α → Prop} :
    ∀ l₁ l₂ : List α, l₁.Perm l₂ → l₁.Pairwise r → l₂.Pairwise r →
      (∀ a ∈ l₁, ∀ b ∈ l₁, r a b → r b a → a = b) → l₁ = l₂ := by
  intro l₁
  induction l₁ with
  | nil =>
      intro l₂ hp _ _ _
      exact (hp.symm.eq_nil).symm
  | cons a l₁ ih =>
      intro l₂ hp h₁ h₂ hanti
      cases l₂ with
      | nil => exact absurd hp.eq_nil (by simp)
      | cons b l₂ =>
          have hab : a = b := by
            by_cases h : a = b
            · exact h
            · have haf : a ∈ b :: l₂ := hp.mem_iff.mp (List.mem_cons_self a l₁)
              have hbf : b ∈ a :: l₁ := hp.symm.mem_iff.mp (List.mem_cons_self b l₂)
              have ha2 : a ∈ l₂ := by
                rcases List.mem_cons.mp haf with h' | h'
                · exact absurd h' h
                · exact h'
              have hb1 : b ∈ l₁ := by
                rcases List.mem_cons.mp hbf with h' | h'
                · exact absurd h'.symm h
                · exact h'
              have hle1 : r a b := (List.pairwise_cons.mp h₁).1 b hb1
              have hle2 : r b a := (List.pairwise_cons.mp h₂).1 a ha2
              exact hanti a (List.mem_cons_self a l₁) b (List.mem_cons_of_mem a hb1) hle1 hle2
          subst hab
          have := ih l₂ hp.cons_inv (List.pairwise_cons.mp h₁).2 (List.pairwise_cons.mp h₂).2
            (fun x hx y hy =>
              hanti x (List.mem_cons_of_mem a hx) y (List.mem_cons_of_mem a hy))
          rw [this]

/-- C5: with `isReverse = false` the sort controller is the identity for
NONE, sorts ascending by title / author for TITLE / AUTHOR, and descending
by num_comments / points for COMMENT / POINT, always a permutation of the
input; with `isReverse = true` it returns the reversal of the
`isReverse = false` result, so POINT toggled is ascending by points and
TITLE toggled is descending lexicographically by title. -/
theorem applySort_spec :
    ∀ l : List Story,
      applySort l .NONE false = l
      ∧ (applySort l .TITLE false).Perm l
      ∧ (applySort l .TITLE false).Pairwise byTitle
      ∧ (applySort l .AUTHOR false).Perm l
      ∧ (applySort l .AUTHOR false).Pairwise byAuthor
      ∧ (applySort l .COMMENT false).Perm l
      ∧ (applySort l .COMMENT false).Pairwise (fun a b => b.num_comments ≤ a.num_comments)
      ∧ (applySort l .POINT false).Perm l
      ∧ (applySort l .POINT false).Pairwise (fun a b => b.points ≤ a.points)
      ∧ (∀ k, applySort l k true = (applySort l k false).reverse)
      ∧ (applySort l .POINT true).Pairwise byPoints
      ∧ (applySort l .TITLE true).Pairwise (fun a b => byTitle b a) := by
  intro l
  refine ⟨rfl, ?_, ?_, ?_, ?_, ?_, ?_, ?_, ?_, fun k => rfl, ?_, ?_⟩
  · exact List.perm_insertionSort byTitle l
  · exact List.sorted_insertionSort byTitle l
  · exact List.perm_insertionSort byAuthor l
  · exact List.sorted_insertionSort byAuthor l
  · exact (List.reverse_perm _).trans (List.perm_insertionSort byComments l)
  · exact List.pairwise_reverse.mpr (List.sorted_insertionSort byComments l)
  · exact (List.reverse_perm _).trans (List.perm_insertionSort byPoints l)
  · exact List.pairwise_reverse.mpr (List.sorted_insertionSort byPoints l)
  · show ((List.insertionSort byPoints l).reverse.reverse).Pairwise byPoints
    rw [List.reverse_reverse]
    exact List.sorted_insertionSort byPoints l
  · exact List.pairwise_reverse.mpr (List.sorted_insertionSort byTitle l)

/-- C9 as stated is false for COMMENT and POINT: on two stories with equal
`points`, `applySort(list, POINT, false)` is not idempotent — the stable
ascending sort leaves the tied pair in place and the reversal flips it, so
the second application flips it back. -/
theorem applySort_point_not_idempotent :
    applySort (applySort [storyA, storyB] .POINT false) .POINT false ≠
      applySort [storyA, storyB] .POINT false := by
  decide

/-- C9 amended: with `isReverse = false` the sort controller is idempotent
for the keys NONE, TITLE and AUTHOR (in particular TITLE); for COMMENT and
POINT it is idempotent provided no two stories of the list share the same
`num_comments` (resp. `points`) value. -/
theorem applySort_idempotent_amended :
    ∀ l : List Story,
      applySort (applySort l .NONE false) .NONE false = applySort l .NONE false
      ∧ applySort (applySort l .TITLE false) .TITLE false = applySort l .TITLE false
      ∧ applySort (applySort l .AUTHOR false) .AUTHOR false = applySort l .AUTHOR false
      ∧ ((∀ a ∈ l, ∀ b ∈ l, a.num_comments = b.num_comments → a = b) →
          applySort (applySort l .COMMENT false) .COMMENT false =
            applySort l .COMMENT false)
      ∧ ((∀ a ∈ l, ∀ b ∈ l, a.points = b.points → a = b) →
          applySort (applySort l .POINT false) .POINT false = applySort l .POINT false) := by
  intro l
  refine ⟨rfl, ?_, ?_, ?_, ?_⟩
  · exact (List.sorted_insertionSort byTitle l).insertionSort_eq
  · exact (List.sorted_insertionSort byAuthor l).insertionSort_eq
  · intro hinj
    show (List.insertionSort byComments
        ((List.insertionSort byComments l).reverse)).reverse =
      (List.insertionSort byComments l).reverse
    have hmem : ∀ x, x ∈ List.insertionSort byComments
        ((List.insertionSort byComments l).reverse) → x ∈ l := by
      intro x hx
      exact ((((List.perm_insertionSort byComments _).trans
        (List.reverse_perm _)).trans (List.perm_insertionSort byComments l)).mem_iff).mp hx
    have key : List.insertionSort byComments
        ((List.insertionSort byComments l).reverse) =
        List.insertionSort byComments l := by
      apply sorted_perm_eq _ _
        ((List.perm_insertionSort byComments _).trans (List.reverse_perm _))
        (List.sorted_insertionSort byComments _)
        (List.sorted_insertionSort byComments l)
      intro a ha b hb hab hba
      exact hinj a (hmem a ha) b (hmem b hb) (le_antisymm hab hba)
    rw [key]
  · intro hinj
    show (List.insertionSort byPoints
        ((List.insertionSort byPoints l).reverse)).reverse =
      (List.insertionSort byPoints l).reverse
    have hmem : ∀ x, x ∈ List.insertionSort byPoints
        ((List.insertionSort byPoints l).reverse) → x ∈ l := by
      intro x hx
      exact ((((List.perm_insertionSort byPoints _).trans
        (List.reverse_perm _)).trans (List.perm_insertionSort byPoints l)).mem_iff).mp hx
    have key : List.insertionSort byPoints
        ((List.insertionSort byPoints l).reverse) =
        List.insertionSort byPoints l := by
      apply sorted_perm_eq _ _
        ((List.perm_insertionSort byPoints _).trans (List.reverse_perm _))
        (List.sorted_insertionSort byPoints _)
        (List.sorted_insertionSort byPoints l)
      intro a ha b hb hab hba
      exact hinj a (hmem a ha) b (hmem b hb) (le_antisymm hab hba)
    rw [key]

/-- Witness for `applySort_idempotent_amended` on a concrete two-story list
whose `num_comments` values are distinct. -/
theorem applySort_idempotent_amended_witness :
    applySort (applySort [storyA, storyB] .TITLE false) .TITLE false =
      applySort [storyA, storyB] .TITLE false
    ∧ applySort (applySort [storyA, storyB] .COMMENT false) .COMMENT false =
      applySort [storyA, storyB] .COMMENT false :=
  ⟨(applySort_idempotent_amended [storyA, storyB]).2.1,
   (applySort_idempotent_amended [storyA, storyB]).2.2.2.1 (by decide)⟩

end HackerStories
